import Mathlib

/-!
# Verification of the bqskit instantiation core

Shallow embedding of the gate capability model, the `VariableUnitaryGate`
local-optimization algorithm, the `Instantiater` shared utilities, and the
`CircuitGate` adapter, together with proofs of the specified properties.

External collaborators (the SVD routine, the `StateVector`/`UnitaryMatrix`
constructors, the `Circuit` type and the random source) are modelled from
the spec and passed in as explicit data or oracles; everything else is
translated directly from the source.
-/

set_option maxHeartbeats 1000000
set_option linter.unusedVariables false

noncomputable section

/-- Square complex matrices of dimension `d`, the value type underlying
`UnitaryMatrix`. -/
abbrev CMat (d : ℕ) : Type := Matrix (Fin d) (Fin d) ℂ

/-- Modelled from the spec: the output of the external SVD routine
(`sp.linalg.svd`): left singular vectors `U`, singular values `S`, and the
conjugate-transposed right singular vectors `Vh`. -/
structure SVDData (d : ℕ) where
  U : CMat d
  S : Fin d → ℝ
  Vh : CMat d

/-- The diagonal matrix of singular values, as a complex matrix. -/
def SVDData.Sigma {d : ℕ} (s : SVDData d) : CMat d :=
  Matrix.diagonal fun i => ((s.S i : ℝ) : ℂ)

/-- `s` is a valid singular value decomposition of `M`: both factor matrices
are unitary, the singular values are nonnegative, and `M = U · Σ · Vh`. -/
def IsSVDOf {d : ℕ} (M : CMat d) (s : SVDData d) : Prop :=
  s.U ∈ Matrix.unitaryGroup (Fin d) ℂ ∧
  s.Vh ∈ Matrix.unitaryGroup (Fin d) ℂ ∧
  (∀ i, 0 ≤ s.S i) ∧
  M = s.U * s.Sigma * s.Vh

/-- Modelled from the spec: `UnitaryMatrix.closest_to` (not in the excerpt)
maps an arbitrary complex square matrix to the nearest unitary under the
Frobenius norm by computing the SVD `M = A·Σ·B†` and discarding the singular
values: the result is `A·B†`.  Here the SVD factors are passed explicitly. -/
def UnitaryMatrix.closest_to {d : ℕ} (s : SVDData d) : CMat d :=
  s.U * s.Vh

/-- Squared Frobenius norm of a complex matrix. -/
def frobeniusNormSq {d : ℕ} (A : CMat d) : ℝ :=
  ∑ i, ∑ j, Complex.normSq (A i j)

/-- The fixed small tolerance used in the unitarity property. -/
def unitaryTol : ℝ := 1 / 10 ^ 8

/-- The error taxonomy of the core, mirroring the Python exception types
raised by the source. -/
inductive PyErr : Type where
  | valueError (msg : String)
  | typeError (msg : String)
  | notImplementedError (msg : String)
  deriving DecidableEq, Repr

/-- Modelled from the spec: `is_valid_radixes(radixes, num_qudits)` from
`bqskit.utils.typing` (not in the excerpt) holds when `radixes` has exactly
`num_qudits` entries, each a valid radix (an integer at least 2). -/
def is_valid_radixes (radixes : List ℤ) (num_qudits : ℤ) : Bool :=
  ((radixes.length : ℤ) == num_qudits) && radixes.all fun r => decide (2 ≤ r)

/-- The construction-time data of a `VariableUnitaryGate`: the qudit count,
the effective radixes, the dimension `d = ∏ radixes`, the parameter count
`2·d²` and the display name. -/
structure VariableUnitaryGate : Type where
  num_qudits : ℤ
  radixes : List ℤ
  dim : ℤ
  num_params : ℤ
  name : String
  deriving DecidableEq, Repr

/-- `VariableUnitaryGate.__init__`: rejects a non-positive qudit count with a
value error, defaults an empty radixes sequence to qubits, validates the
radixes (type error on failure), and records `dim = ∏ radixes` and
`num_params = 2·dim²`. -/
def VariableUnitaryGate.init (num_qudits : ℤ) (radixes : List ℤ) :
    Except PyErr VariableUnitaryGate :=
  if num_qudits ≤ 0 then
    .error (.valueError ("Expected positive integer, got " ++ toString num_qudits))
  else
    let r := if radixes.length = 0 then List.replicate num_qudits.toNat 2 else radixes
    if is_valid_radixes r num_qudits then
      .ok ⟨num_qudits, r, r.prod, 2 * r.prod ^ 2,
        "VariableUnitaryGate(" ++ toString num_qudits ++ ")"⟩
    else
      .error (.typeError "Invalid radixes.")

/-- The complex matrix reconstructed by `get_unitary` before projection:
`mid = len(params) // 2`, the first half are real parts and the second half
imaginary parts of a row-major `d × d` matrix (`x = real + 1j·imag`). -/
def reconstruct (d : ℕ) (params : List ℝ) : CMat d :=
  let mid := params.length / 2
  Matrix.of fun i j =>
    (((params.take mid).getD ((finProdFinEquiv (i, j)).val) 0 : ℝ) : ℂ) +
    Complex.I * (((params.drop mid).getD ((finProdFinEquiv (i, j)).val) 0 : ℝ) : ℂ)

/-- `VariableUnitaryGate.get_unitary`: validates `len(params) == num_params`
(`= 2·d²`, a validation error otherwise; `check_parameters` is modelled from
the spec) and returns the nearest-unitary projection of the reconstructed
matrix, the projection's SVD factors being supplied by the oracle `s`. -/
def VariableUnitaryGate.get_unitary (d : ℕ) (params : List ℝ) (s : SVDData d) :
    Except PyErr (CMat d) :=
  if params.length = 2 * d ^ 2 then
    .ok (UnitaryMatrix.closest_to s)
  else
    .error (.valueError "Invalid parameters: length mismatch.")

/-- `VariableUnitaryGate.get_grad`: declared but unimplemented; raises
`NotImplementedError` unconditionally. -/
def VariableUnitaryGate.get_grad (d : ℕ) (params : List ℝ) :
    Except PyErr (List (CMat d)) :=
  .error (.notImplementedError
    "Gradient-based optimization not implemented for VariableUnitaryGate.")

/-- Row-major flattening of a complex matrix into its list of real parts
followed by its list of imaginary parts (`list(real(x)) + list(imag(x))`). -/
def flattenMatrix (d : ℕ) (x : CMat d) : List ℝ :=
  (List.ofFn fun k : Fin (d * d) =>
    (x (finProdFinEquiv.symm k).1 (finProdFinEquiv.symm k).2).re) ++
  (List.ofFn fun k : Fin (d * d) =>
    (x (finProdFinEquiv.symm k).1 (finProdFinEquiv.symm k).2).im)

/-- `VariableUnitaryGate.optimize`: computes the SVD `env = U·Σ·Vh` (factors
supplied by the oracle `s`), forms `x = Vh† · U†`, reshapes it to a flat
vector and returns its real parts followed by its imaginary parts. -/
def VariableUnitaryGate.optimize (d : ℕ) (env : CMat d) (s : SVDData d) :
    List ℝ :=
  flattenMatrix d (s.Vh.conjTranspose * s.U.conjTranspose)

/-- Modelled from the spec: the collaborating `Circuit` type (out of scope in
the excerpt) exposes a parameter count, a qudit count, radixes, and a
combined unitary obtained by composing its placed operations. -/
structure Circuit : Type where
  num_params : ℕ
  size : ℕ
  radixes : List ℕ
  ops : List (CMat 2)
  deriving Inhabited

/-- Modelled from the spec: `Circuit.get_size()`. -/
def Circuit.get_size (c : Circuit) : ℕ := c.size

/-- Modelled from the spec: `Circuit.get_radixes()`. -/
def Circuit.get_radixes (c : Circuit) : List ℕ := c.radixes

/-- Modelled from the spec: `Circuit.get_unitary()`, the recursive composition
of the placed operations' unitaries. -/
def Circuit.get_unitary (c : Circuit) : CMat 2 := c.ops.prod

/-- Modelled from the spec: `Circuit.copy()` produces a deep, independent
duplicate; on values this is the identity, and independence is captured by
allocating the copy at a fresh heap address. -/
def Circuit.copy (c : Circuit) : Circuit := c

/-- A heap of circuit objects addressed by natural numbers, modelling Python
object identity so that aliasing between the caller's circuit and the gate's
stored circuit is observable. -/
abbrev Heap : Type := List Circuit

/-- Dereference an address. -/
def Heap.read (h : Heap) (r : ℕ) : Circuit :=
  List.getD h r default

/-- Allocate a fresh object, returning the new heap and its address. -/
def Heap.alloc (h : Heap) (c : Circuit) : Heap × ℕ :=
  (List.append h [c], List.length h)

/-- In-place mutation of the object at address `r`. -/
def Heap.mutateAt (h : Heap) (r : ℕ) (f : Circuit → Circuit) : Heap :=
  List.set h r (f (Heap.read h r))

/-- The cached fields of a `CircuitGate`: the address of its stored circuit
and the eagerly computed `size`, `radixes` and `utry`. -/
structure CircuitGate : Type where
  circuit_ref : ℕ
  size : ℕ
  radixes : List ℕ
  utry : CMat 2

/-- `CircuitGate.__init__`: stores the given circuit when `move` is set,
otherwise a freshly allocated copy; then eagerly caches `get_size()`,
`get_radixes()` and `get_unitary()` of the stored circuit. -/
def CircuitGate.init (h : Heap) (r : ℕ) (move : Bool) : Heap × CircuitGate :=
  let pair := if move then (h, r) else Heap.alloc h (Circuit.copy (Heap.read h r))
  let c := Heap.read pair.1 pair.2
  (pair.1, ⟨pair.2, c.get_size, c.get_radixes, c.get_unitary⟩)

/-- The normalized target returned by `check_target`: either a state vector
or a unitary matrix. -/
inductive NormTarget (σ υ : Type) : Type where
  | state (s : σ)
  | unitary (u : υ)
  deriving DecidableEq, Repr

/-- `Instantiater.check_target`: tries the `StateVector` constructor first;
on its validation failure falls back to the `UnitaryMatrix` constructor; if
both fail, raises a type error naming the original input's type.  The two
external constructors are modelled as `Option`-valued oracles and the
input's runtime type by `typeName`. -/
def Instantiater.check_target {α σ υ : Type} (tryState : α → Option σ)
    (tryUnitary : α → Option υ) (typeName : α → String) (t : α) :
    Except PyErr (NormTarget σ υ) :=
  match tryState t with
  | some s => .ok (.state s)
  | none =>
    match tryUnitary t with
    | some u => .ok (.unitary u)
    | none => .error (.typeError
        ("Expected either StateVector, UnitaryMatrix, or CostFunction for target, got "
          ++ typeName t ++ "."))

/-- A Python value passed for `multistarts`: either an integer or a value of
some other runtime type (carrying that type's name). -/
inductive PyValue : Type where
  | int (n : ℤ)
  | other (typeName : String)
  deriving DecidableEq, Repr

/-- Modelled from the spec: `is_integer` from `bqskit.utils.typing` holds
exactly on integer values. -/
def is_integer : PyValue → Bool
  | .int _ => true
  | .other _ => false

/-- `PyValue.typeName`, the runtime type name used in error messages. -/
def PyValue.pyTypeName : PyValue → String
  | .int _ => "int"
  | .other ty => ty

/-- `Instantiater.gen_starting_points`: a type error when `multistarts` is
not an integer, a value error when it is not positive, and otherwise one
uniform random vector of length `circuit.num_params` per start.  The external
random source `np.random.random` is modelled by the oracle `rng`, mapping a
requested length and a draw index to the drawn vector. -/
def Instantiater.gen_starting_points (rng : ℕ → ℕ → List ℝ)
    (multistarts : PyValue) (circuit : Circuit) :
    Except PyErr (List (List ℝ)) :=
  if is_integer multistarts then
    match multistarts with
    | .other ty => .error (.typeError ("Expected int for multistarts, got " ++ ty ++ "."))
    | .int n =>
      if n ≤ 0 then
        .error (.valueError ("Expected positive integer for multistarts, got " ++ toString n))
      else
        .ok ((List.range n.toNat).map fun i => rng circuit.num_params i)
  else
    .error (.typeError
      ("Expected int for multistarts, got " ++ multistarts.pyTypeName ++ "."))

/-! ## Concrete fixtures for witnesses and counterexamples -/

/-- The trivial SVD of the identity matrix: both factors and all singular
values are `1`. -/
def idSVD (d : ℕ) : SVDData d := ⟨1, fun i => 1, 1⟩

/-- Concrete parameter vector for a 1-qubit gate (`d = 2`, `2·d² = 8`
parameters) whose reconstruction is the identity matrix. -/
def idParams : List ℝ := [1, 0, 0, 1, 0, 0, 0, 0]

/-- Concrete environment matrix `diag(1, i)` used to separate the two trace
conventions of the Procrustes objective. -/
def envCE : CMat 2 := !![1, 0; 0, Complex.I]

/-- A valid SVD of `envCE`: `U = diag(1, i)`, `Σ = I`, `Vh = I`. -/
def svdCE : SVDData 2 := ⟨!![1, 0; 0, Complex.I], fun i => 1, 1⟩

/-- A valid SVD of `diag(1, -i)`, the matrix reconstructed from the
parameters `optimize(envCE)`. -/
def svdCE2 : SVDData 2 := ⟨!![1, 0; 0, -Complex.I], fun i => 1, 1⟩

/-- Concrete state-constructor oracle: only the input `0` is a valid state. -/
def wTryState : ℕ → Option ℕ := fun n => if n ≤ 1 then some 0 else none

/-- Concrete unitary-constructor oracle: inputs `1` and `2` are valid
unitaries; input `1` is also a valid state, exercising the tie-break. -/
def wTryUnitary : ℕ → Option ℕ := fun n => if n ≤ 2 then some 1 else none

/-- Concrete runtime type name oracle. -/
def wTypeName : ℕ → String := fun n => "ndarray"

/-- Concrete random source: every draw is the constant-`1/2` vector of the
requested length. -/
def wRng : ℕ → ℕ → List ℝ := fun m i => List.replicate m (1 / 2)

/-- Concrete circuit with 3 free parameters. -/
def wCircuit : Circuit := ⟨3, 1, [2], []⟩

/-- A concrete circuit mutation, used to exercise the freezing property. -/
def wMutate : Circuit → Circuit := fun c => ⟨c.num_params + 1, c.size + 1, c.radixes, 0 :: c.ops⟩

/-! ## Helper lemmas -/

theorem flattenMatrix_length {d : ℕ} (x : CMat d) :
    (flattenMatrix d x).length = 2 * d ^ 2 := by
  simp [flattenMatrix]
  ring

theorem closestTo_mem_unitaryGroup {d : ℕ} {s : SVDData d}
    (hU : s.U ∈ Matrix.unitaryGroup (Fin d) ℂ)
    (hV : s.Vh ∈ Matrix.unitaryGroup (Fin d) ℂ) :
    UnitaryMatrix.closest_to s ∈ Matrix.unitaryGroup (Fin d) ℂ :=
  mul_mem hU hV

theorem optimizeTarget_mem_unitaryGroup {d : ℕ} {s : SVDData d}
    (hU : s.U ∈ Matrix.unitaryGroup (Fin d) ℂ)
    (hV : s.Vh ∈ Matrix.unitaryGroup (Fin d) ℂ) :
    s.Vh.conjTranspose * s.U.conjTranspose ∈ Matrix.unitaryGroup (Fin d) ℂ := by
  have h1 : star s.Vh ∈ Matrix.unitaryGroup (Fin d) ℂ := unitary.star_mem hV
  have h2 : star s.U ∈ Matrix.unitaryGroup (Fin d) ℂ := unitary.star_mem hU
  rw [Matrix.star_eq_conjTranspose] at h1 h2
  exact mul_mem h1 h2

theorem reconstruct_flattenMatrix {d : ℕ} (x : CMat d) :
    reconstruct d (flattenMatrix d x) = x := by
  ext i j
  have hlenre : (List.ofFn fun k : Fin (d * d) =>
      (x (finProdFinEquiv.symm k).1 (finProdFinEquiv.symm k).2).re).length = d * d := by
    simp
  have hlenim : (List.ofFn fun k : Fin (d * d) =>
      (x (finProdFinEquiv.symm k).1 (finProdFinEquiv.symm k).2).im).length = d * d := by
    simp
  have hmid : (flattenMatrix d x).length / 2 = d * d := by
    simp [flattenMatrix]
    omega
  have htake : (flattenMatrix d x).take ((flattenMatrix d x).length / 2) =
      List.ofFn fun k : Fin (d * d) =>
        (x (finProdFinEquiv.symm k).1 (finProdFinEquiv.symm k).2).re := by
    rw [hmid, flattenMatrix]
    exact List.take_left' hlenre
  have hdrop : (flattenMatrix d x).drop ((flattenMatrix d x).length / 2) =
      List.ofFn fun k : Fin (d * d) =>
        (x (finProdFinEquiv.symm k).1 (finProdFinEquiv.symm k).2).im := by
    rw [hmid, flattenMatrix]
    exact List.drop_left' hlenre
  have hgetre : ((flattenMatrix d x).take ((flattenMatrix d x).length / 2)).getD
      ((finProdFinEquiv (i, j)).val) 0 = (x i j).re := by
    rw [htake, List.getD_eq_getElem?_getD,
      List.getElem?_eq_getElem (by simpa using (finProdFinEquiv (i, j)).isLt)]
    simp only [Option.getD_some, List.getElem_ofFn, Fin.eta, Equiv.symm_apply_apply]
  have hgetim : ((flattenMatrix d x).drop ((flattenMatrix d x).length / 2)).getD
      ((finProdFinEquiv (i, j)).val) 0 = (x i j).im := by
    rw [hdrop, List.getD_eq_getElem?_getD,
      List.getElem?_eq_getElem (by simpa using (finProdFinEquiv (i, j)).isLt)]
    simp only [Option.getD_some, List.getElem_ofFn, Fin.eta, Equiv.symm_apply_apply]
  show (((flattenMatrix d x).take ((flattenMatrix d x).length / 2)).getD
      ((finProdFinEquiv (i, j)).val) 0 : ℂ) +
    Complex.I * (((flattenMatrix d x).drop ((flattenMatrix d x).length / 2)).getD
      ((finProdFinEquiv (i, j)).val) 0 : ℂ) = x i j
  rw [hgetre, hgetim, mul_comm, Complex.re_add_im]

theorem re_diag_le_one_of_unitary {d : ℕ} {T : CMat d}
    (hT : T ∈ Matrix.unitaryGroup (Fin d) ℂ) (i : Fin d) : (T i i).re ≤ 1 := by
  have h1 : star T * T = 1 := Matrix.mem_unitaryGroup_iff'.mp hT
  have h2 : ∑ j, (starRingEnd ℂ) (T j i) * T j i = 1 := by
    have h3 := congrFun (congrFun h1 i) i
    rw [Matrix.star_eq_conjTranspose] at h3
    simpa [Matrix.mul_apply, Matrix.conjTranspose_apply, Matrix.one_apply] using h3
  have h4 : ∑ j, Complex.normSq (T j i) = (1 : ℝ) := by
    have h5 : ∑ j, ((Complex.normSq (T j i) : ℝ) : ℂ) = 1 := by
      have h6 : ∀ j : Fin d, ((Complex.normSq (T j i) : ℝ) : ℂ) =
          (starRingEnd ℂ) (T j i) * T j i := fun j => Complex.normSq_eq_conj_mul_self
      rw [Finset.sum_congr rfl fun j _ => h6 j]
      exact h2
    have h7 := congrArg Complex.re h5
    simpa using h7
  have h8 : Complex.normSq (T i i) ≤ 1 := by
    rw [← h4]
    exact Finset.single_le_sum (fun j _ => Complex.normSq_nonneg (T j i)) (Finset.mem_univ i)
  have h9 : Complex.abs (T i i) ≤ 1 := by
    have h10 : (Complex.abs (T i i)) ^ 2 ≤ 1 := by rw [Complex.sq_abs]; exact h8
    nlinarith [Complex.abs.nonneg (T i i)]
  exact le_trans (Complex.re_le_abs _) h9

theorem sigma_eq_one_of_unitary {d : ℕ} {M : CMat d} {s : SVDData d}
    (hM : M ∈ Matrix.unitaryGroup (Fin d) ℂ) (hs : IsSVDOf M s) :
    s.Sigma = 1 := by
  obtain ⟨hU, hV, hS, hfac⟩ := hs
  have hUu : star s.U * s.U = 1 := Matrix.mem_unitaryGroup_iff'.mp hU
  have hVu : s.Vh * star s.Vh = 1 := Matrix.mem_unitaryGroup_iff.mp hV
  have hMu : star M * M = 1 := Matrix.mem_unitaryGroup_iff'.mp hM
  have hstarSigma : star s.Sigma = s.Sigma := by
    rw [Matrix.star_eq_conjTranspose, SVDData.Sigma, Matrix.diagonal_conjTranspose]
    have h0 : (star fun i => ((s.S i : ℝ) : ℂ)) = fun i => ((s.S i : ℝ) : ℂ) := by
      funext i
      rw [Pi.star_apply, Complex.star_def, Complex.conj_ofReal]
    rw [h0]
  have hkey : star s.Vh * (s.Sigma * s.Sigma) * s.Vh = 1 := by
    have h1 : star (s.U * s.Sigma * s.Vh) * (s.U * s.Sigma * s.Vh) = 1 := by
      rw [← hfac]; exact hMu
    calc star s.Vh * (s.Sigma * s.Sigma) * s.Vh
        = star s.Vh * (star s.Sigma * (star s.U * s.U) * s.Sigma) * s.Vh := by
          rw [hUu, mul_one, hstarSigma]
      _ = star (s.U * s.Sigma * s.Vh) * (s.U * s.Sigma * s.Vh) := by
          simp only [star_mul, mul_assoc]
      _ = 1 := h1
  have hsq : s.Sigma * s.Sigma = 1 := by
    calc s.Sigma * s.Sigma
        = 1 * (s.Sigma * s.Sigma) * 1 := by rw [one_mul, mul_one]
      _ = (s.Vh * star s.Vh) * (s.Sigma * s.Sigma) * (s.Vh * star s.Vh) := by
          rw [hVu]
      _ = s.Vh * (star s.Vh * (s.Sigma * s.Sigma) * s.Vh) * star s.Vh := by
          simp only [mul_assoc]
      _ = s.Vh * star s.Vh := by rw [hkey, mul_one]
      _ = 1 := hVu
  have hSone : ∀ i, s.S i = 1 := by
    intro i
    have h2 : ((s.S i : ℝ) : ℂ) * ((s.S i : ℝ) : ℂ) = 1 := by
      have h3 := congrFun (congrFun hsq i) i
      simpa [SVDData.Sigma, Matrix.diagonal_mul_diagonal, Matrix.diagonal_apply_eq,
        Matrix.one_apply] using h3
    have h4 : s.S i * s.S i = 1 := by
      have h5 : (((s.S i * s.S i : ℝ)) : ℂ) = ((1 : ℝ) : ℂ) := by
        push_cast
        simpa using h2
      exact_mod_cast h5
    nlinarith [hS i]
  rw [SVDData.Sigma]
  have h6 : (fun i => ((s.S i : ℝ) : ℂ)) = fun i => (1 : ℂ) := by
    funext i
    rw [hSone i]
    norm_num
  rw [h6, Matrix.diagonal_one]

theorem closestTo_eq_of_unitary {d : ℕ} {M : CMat d} {s : SVDData d}
    (hM : M ∈ Matrix.unitaryGroup (Fin d) ℂ) (hs : IsSVDOf M s) :
    UnitaryMatrix.closest_to s = M := by
  have h1 := sigma_eq_one_of_unitary hM hs
  obtain ⟨hU, hV, hS, hfac⟩ := hs
  rw [UnitaryMatrix.closest_to, hfac, h1, mul_one]

theorem trace_mul_sigma_re {d : ℕ} (X : CMat d) (s : SVDData d) :
    (X * s.Sigma).trace.re = ∑ i, (X i i).re * s.S i := by
  rw [Matrix.trace]
  have h1 : ∀ i : Fin d, (X * s.Sigma).diag i = X i i * ((s.S i : ℝ) : ℂ) := by
    intro i
    rw [Matrix.diag_apply, SVDData.Sigma, Matrix.mul_diagonal]
  rw [Finset.sum_congr rfl fun i _ => h1 i, Complex.re_sum]
  refine Finset.sum_congr rfl fun i _ => ?_
  simp [Complex.mul_re]

theorem trace_env_mul_le {d : ℕ} {env : CMat d} {s : SVDData d}
    (hs : IsSVDOf env s) (W : CMat d) (hW : W ∈ Matrix.unitaryGroup (Fin d) ℂ) :
    (env * W).trace.re ≤ ∑ i, s.S i := by
  obtain ⟨hU, hV, hS, hfac⟩ := hs
  have hT : s.Vh * W * s.U ∈ Matrix.unitaryGroup (Fin d) ℂ :=
    mul_mem (mul_mem hV hW) hU
  have h1 : (env * W).trace = ((s.Vh * W * s.U) * s.Sigma).trace := by
    rw [hfac]
    calc (s.U * s.Sigma * s.Vh * W).trace
        = ((s.U * s.Sigma) * (s.Vh * W)).trace := by rw [mul_assoc]
      _ = ((s.Vh * W) * (s.U * s.Sigma)).trace := Matrix.trace_mul_comm _ _
      _ = ((s.Vh * W * s.U) * s.Sigma).trace := by rw [← mul_assoc]
  rw [h1, trace_mul_sigma_re]
  refine Finset.sum_le_sum fun i _ => ?_
  calc ((s.Vh * W * s.U) i i).re * s.S i
      ≤ 1 * s.S i :=
        mul_le_mul_of_nonneg_right (re_diag_le_one_of_unitary hT i) (hS i)
    _ = s.S i := one_mul _

theorem trace_env_mul_optimal {d : ℕ} {env : CMat d} {s : SVDData d}
    (hs : IsSVDOf env s) :
    (env * (s.Vh.conjTranspose * s.U.conjTranspose)).trace.re = ∑ i, s.S i := by
  obtain ⟨hU, hV, hS, hfac⟩ := hs
  have hVu : s.Vh * star s.Vh = 1 := Matrix.mem_unitaryGroup_iff.mp hV
  have hUu : star s.U * s.U = 1 := Matrix.mem_unitaryGroup_iff'.mp hU
  have h1 : env * (s.Vh.conjTranspose * s.U.conjTranspose) =
      s.U * s.Sigma * star s.U := by
    rw [hfac, ← Matrix.star_eq_conjTranspose, ← Matrix.star_eq_conjTranspose]
    calc s.U * s.Sigma * s.Vh * (star s.Vh * star s.U)
        = s.U * s.Sigma * (s.Vh * star s.Vh) * star s.U := by
          simp only [mul_assoc]
      _ = s.U * s.Sigma * star s.U := by rw [hVu, mul_one]
  have h2 : (s.U * s.Sigma * star s.U).trace = s.Sigma.trace := by
    calc (s.U * s.Sigma * star s.U).trace
        = (star s.U * (s.U * s.Sigma)).trace :=
          Matrix.trace_mul_comm (s.U * s.Sigma) (star s.U)
      _ = ((star s.U * s.U) * s.Sigma).trace := by rw [← mul_assoc]
      _ = s.Sigma.trace := by rw [hUu, one_mul]
  rw [h1, h2, SVDData.Sigma, Matrix.trace_diagonal, Complex.re_sum]
  refine Finset.sum_congr rfl fun i _ => ?_
  simp

theorem Heap.read_concat_length (h : Heap) (c : Circuit) :
    Heap.read (List.append h [c]) h.length = c := by
  have h1 : (h ++ [c])[h.length]? = some c := List.getElem?_concat_length h c
  simp only [Heap.read, List.getD_eq_getElem?_getD, List.append_eq, h1, Option.getD_some]

theorem Heap.read_mutateAt_ne (h : Heap) (r n : ℕ) (f : Circuit → Circuit)
    (hne : r ≠ n) : Heap.read (Heap.mutateAt h r f) n = Heap.read h n := by
  simp only [Heap.mutateAt, Heap.read, List.getD_eq_getElem?_getD,
    List.getElem?_set_ne hne]

theorem Heap.read_foldl_mutateAt_ne (fs : List (Circuit → Circuit)) (r n : ℕ)
    (hne : r ≠ n) (h : Heap) :
    Heap.read (fs.foldl (fun acc f => Heap.mutateAt acc r f) h) n = Heap.read h n := by
  induction fs generalizing h with
  | nil => rfl
  | cons f fs ih =>
    rw [List.foldl_cons, ih (Heap.mutateAt h r f), Heap.read_mutateAt_ne h r n f hne]

theorem idSVD_is_svd (d : ℕ) : IsSVDOf (1 : CMat d) (idSVD d) := by
  refine ⟨one_mem _, one_mem _, fun i => zero_le_one, ?_⟩
  have h1 : (idSVD d).Sigma = 1 := by
    rw [SVDData.Sigma]
    have h2 : (fun i : Fin d => (((idSVD d).S i : ℝ) : ℂ)) = fun i => (1 : ℂ) := by
      funext i
      simp [idSVD]
    rw [h2, Matrix.diagonal_one]
  show (1 : CMat d) = (idSVD d).U * (idSVD d).Sigma * (idSVD d).Vh
  rw [h1]
  show (1 : CMat d) = 1 * 1 * 1
  rw [one_mul, one_mul]

theorem closestTo_idSVD (d : ℕ) : UnitaryMatrix.closest_to (idSVD d) = 1 := by
  show (1 : CMat d) * 1 = 1
  rw [one_mul]

/-! ## Claim theorems -/

/-- C8: for every parameter vector (of any length) and every gate dimension,
`VariableUnitaryGate.get_grad` signals a capability-unsupported
(`NotImplementedError`) terminal failure; it never returns a gradient. -/
theorem get_grad_not_implemented (d : ℕ) (params : List ℝ) :
    VariableUnitaryGate.get_grad d params = .error (.notImplementedError
      "Gradient-based optimization not implemented for VariableUnitaryGate.") :=
  rfl

/-- C5: `check_target` interprets the input first as a state (returning a
state even when the input is also constructible as a unitary), falls back to
a unitary when the state construction fails, and raises a type error naming
the original input's type exactly when both constructions fail. -/
theorem check_target_state_first {α σ υ : Type} (tryState : α → Option σ)
    (tryUnitary : α → Option υ) (typeName : α → String) (t : α) :
    (∀ s, tryState t = some s →
      Instantiater.check_target tryState tryUnitary typeName t = .ok (.state s)) ∧
    (tryState t = none → ∀ u, tryUnitary t = some u →
      Instantiater.check_target tryState tryUnitary typeName t = .ok (.unitary u)) ∧
    ((tryState t = none ∧ tryUnitary t = none) ↔
      Instantiater.check_target tryState tryUnitary typeName t = .error (.typeError
        ("Expected either StateVector, UnitaryMatrix, or CostFunction for target, got "
          ++ typeName t ++ "."))) := by
  refine ⟨?_, ?_, ?_⟩
  · intro s hS
    simp [Instantiater.check_target, hS]
  · intro hS u hU
    simp [Instantiater.check_target, hS, hU]
  · cases hS : tryState t with
    | some s => simp [Instantiater.check_target, hS]
    | none =>
      cases hU : tryUnitary t with
      | some u => simp [Instantiater.check_target, hS, hU]
      | none => simp [Instantiater.check_target, hS, hU]

/-- Witness for C5 at concrete oracles: input `1` is constructible both as a
state and as a unitary and is returned as a state; input `2` only as a
unitary; input `3` as neither, yielding the type error with its type name. -/
theorem check_target_state_first_witness :
    Instantiater.check_target wTryState wTryUnitary wTypeName 1 = .ok (.state 0) ∧
    Instantiater.check_target wTryState wTryUnitary wTypeName 2 = .ok (.unitary 1) ∧
    Instantiater.check_target wTryState wTryUnitary wTypeName 3 = .error (.typeError
      "Expected either StateVector, UnitaryMatrix, or CostFunction for target, got ndarray.") :=
  ⟨(check_target_state_first wTryState wTryUnitary wTypeName 1).1 0 rfl,
   (check_target_state_first wTryState wTryUnitary wTypeName 2).2.1 rfl 1 rfl,
   (check_target_state_first wTryState wTryUnitary wTypeName 3).2.2.mp ⟨rfl, rfl⟩⟩

/-- C6: `gen_starting_points` raises a type error when `multistarts` is not
an integer, a value error when it is an integer `≤ 0`, and for every integer
`k > 0` returns a list of exactly `k` vectors, each of length
`circuit.num_params`. -/
theorem gen_starting_points_spec (rng : ℕ → ℕ → List ℝ) (circuit : Circuit)
    (hrng : ∀ m i, (rng m i).length = m) :
    (∀ ty : String, Instantiater.gen_starting_points rng (.other ty) circuit =
      .error (.typeError ("Expected int for multistarts, got " ++ ty ++ "."))) ∧
    (∀ n : ℤ, n ≤ 0 → Instantiater.gen_starting_points rng (.int n) circuit =
      .error (.valueError
        ("Expected positive integer for multistarts, got " ++ toString n))) ∧
    (∀ n : ℤ, 0 < n →
      Instantiater.gen_starting_points rng (.int n) circuit =
        .ok ((List.range n.toNat).map fun i => rng circuit.num_params i) ∧
      ((List.range n.toNat).map fun i => rng circuit.num_params i).length = n.toNat ∧
      (∀ v ∈ (List.range n.toNat).map fun i => rng circuit.num_params i,
        v.length = circuit.num_params)) := by
  refine ⟨?_, ?_, ?_⟩
  · intro ty
    simp [Instantiater.gen_starting_points, is_integer, PyValue.pyTypeName]
  · intro n hn
    simp [Instantiater.gen_starting_points, is_integer, hn]
  · intro n hn
    refine ⟨?_, ?_, ?_⟩
    · simp [Instantiater.gen_starting_points, is_integer, not_le.mpr hn]
    · simp
    · intro v hv
      obtain ⟨i, hi, hvi⟩ := List.mem_map.mp hv
      rw [← hvi]
      exact hrng circuit.num_params i

/-- Witness for C6: the constant-`1/2` random source satisfies the length
contract, and two starts for a 3-parameter circuit give exactly the expected
list. -/
theorem gen_starting_points_spec_witness :
    (∀ m i, (wRng m i).length = m) ∧
    Instantiater.gen_starting_points wRng (.other "float") wCircuit =
      .error (.typeError "Expected int for multistarts, got float.") ∧
    Instantiater.gen_starting_points wRng (.int 0) wCircuit =
      .error (.valueError "Expected positive integer for multistarts, got 0") ∧
    Instantiater.gen_starting_points wRng (.int 2) wCircuit =
      .ok ((List.range (2 : ℤ).toNat).map fun i => wRng wCircuit.num_params i) := by
  have hrng : ∀ m i, (wRng m i).length = m := fun m i => by simp [wRng]
  exact ⟨hrng,
    (gen_starting_points_spec wRng wCircuit hrng).1 "float",
    (gen_starting_points_spec wRng wCircuit hrng).2.1 0 le_rfl,
    ((gen_starting_points_spec wRng wCircuit hrng).2.2 2 (by norm_num)).1⟩

/-- C10: assuming the external uniform source draws each coordinate in
`[0, 1)` (the documented contract of `np.random.random`), every coordinate of
every starting-point vector returned by `gen_starting_points` lies in
`[0, 1)`, for every positive integer multistart count and every circuit. -/
theorem gen_starting_points_unit_interval (rng : ℕ → ℕ → List ℝ)
    (circuit : Circuit) (hrng : ∀ m i, ∀ x ∈ rng m i, 0 ≤ x ∧ x < 1)
    (n : ℤ) (hn : 0 < n) (l : List (List ℝ))
    (hl : Instantiater.gen_starting_points rng (.int n) circuit = .ok l) :
    ∀ v ∈ l, ∀ x ∈ v, 0 ≤ x ∧ x < 1 := by
  have hok : Instantiater.gen_starting_points rng (.int n) circuit =
      .ok ((List.range n.toNat).map fun i => rng circuit.num_params i) := by
    simp [Instantiater.gen_starting_points, is_integer, not_le.mpr hn]
  rw [hok] at hl
  injection hl with hl
  intro v hv
  rw [← hl] at hv
  obtain ⟨i, hi, hvi⟩ := List.mem_map.mp hv
  rw [← hvi]
  exact hrng circuit.num_params i

/-- Witness for C10: the constant-`1/2` source lies in `[0, 1)` coordinate-wise,
and so does each coordinate of the single starting point it generates. -/
theorem gen_starting_points_unit_interval_witness :
    (∀ m i, ∀ x ∈ wRng m i, 0 ≤ x ∧ x < 1) ∧ (0 : ℤ) < 1 ∧
    (∀ v ∈ [wRng wCircuit.num_params 0], ∀ x ∈ v, 0 ≤ x ∧ x < 1) := by
  have hrng : ∀ m i, ∀ x ∈ wRng m i, 0 ≤ x ∧ x < 1 := by
    intro m i x hx
    rw [wRng] at hx
    have h1 : x = 1 / 2 := List.eq_of_mem_replicate hx
    rw [h1]
    norm_num
  refine ⟨hrng, by norm_num, ?_⟩
  refine gen_starting_points_unit_interval wRng wCircuit hrng 1 (by norm_num)
    [wRng wCircuit.num_params 0] ?_
  simp [Instantiater.gen_starting_points, is_integer, List.range_succ]

/-- C7 counterexample: supplying the empty radixes sequence to a gate with
`num_qudits = 1` does not have exactly `num_qudits` entries, yet construction
succeeds (the source treats an empty sequence as "not supplied" and defaults
to qubits), contradicting the claim as stated. -/
theorem variable_unitary_init_counterexample :
    VariableUnitaryGate.init 1 [] =
      .ok ⟨1, [2], 2, 8, "VariableUnitaryGate(1)"⟩ ∧
    ([] : List ℤ).length ≠ 1 := by
  constructor
  · rfl
  · decide

/-- C7 (amended): constructing with `num_qudits ≤ 0` fails with a validation
(value) error; constructing with a supplied **non-empty** radixes sequence
that does not have exactly `num_qudits` entries, each an integer `≥ 2`, fails
with a validation (type) error; on success `num_params = 2·(∏ radixes)²`. -/
theorem variable_unitary_init_spec :
    (∀ (nq : ℤ) (r : List ℤ), nq ≤ 0 →
      VariableUnitaryGate.init nq r =
        .error (.valueError ("Expected positive integer, got " ++ toString nq))) ∧
    (∀ (nq : ℤ) (r : List ℤ), 0 < nq → r ≠ [] →
      ¬((r.length : ℤ) = nq ∧ ∀ x ∈ r, 2 ≤ x) →
      VariableUnitaryGate.init nq r = .error (.typeError "Invalid radixes.")) ∧
    (∀ (nq : ℤ) (r : List ℤ) (g : VariableUnitaryGate),
      VariableUnitaryGate.init nq r = .ok g →
      g.num_params = 2 * g.radixes.prod ^ 2) := by
  refine ⟨?_, ?_, ?_⟩
  · intro nq r hle
    simp [VariableUnitaryGate.init, hle]
  · intro nq r hpos hne hbad
    have hlen : r.length ≠ 0 := fun h0 => hne (List.length_eq_zero.mp h0)
    have hval : is_valid_radixes r nq = false := by
      rw [is_valid_radixes]
      rw [Bool.and_eq_false_iff]
      by_cases hl : (r.length : ℤ) = nq
      · right
        rw [Bool.eq_false_iff]
        intro hall
        rw [List.all_eq_true] at hall
        exact hbad ⟨hl, fun x hx => of_decide_eq_true (hall x hx)⟩
      · left
        simpa using hl
    simp [VariableUnitaryGate.init, not_le.mpr hpos, hlen, hval]
  · intro nq r g hok
    rw [VariableUnitaryGate.init] at hok
    by_cases hle : nq ≤ 0
    · rw [if_pos hle] at hok
      exact absurd hok (by simp)
    · rw [if_neg hle] at hok
      set rr := if r.length = 0 then List.replicate nq.toNat 2 else r with hrr
      by_cases hv : is_valid_radixes rr nq
      · rw [if_pos hv] at hok
        injection hok with hok
        rw [← hok]
      · rw [if_neg hv] at hok
        exact absurd hok (by simp)

/-- Witness for C7 (amended): a non-positive qudit count fails, a wrong-length
non-empty radixes list fails, and a successful default construction yields
`num_params = 2·(∏ radixes)²`. -/
theorem variable_unitary_init_spec_witness :
    VariableUnitaryGate.init (-1) [] =
      .error (.valueError "Expected positive integer, got -1") ∧
    VariableUnitaryGate.init 1 [3, 3] = .error (.typeError "Invalid radixes.") ∧
    (⟨2, [2, 2], 4, 32, "VariableUnitaryGate(2)"⟩ : VariableUnitaryGate).num_params =
      2 * (⟨2, [2, 2], 4, 32, "VariableUnitaryGate(2)"⟩ : VariableUnitaryGate).radixes.prod ^ 2 :=
  ⟨variable_unitary_init_spec.1 (-1) [] (by norm_num),
   variable_unitary_init_spec.2.1 1 [3, 3] (by norm_num) (by decide) (by decide),
   variable_unitary_init_spec.2.2 2 [] ⟨2, [2, 2], 4, 32, "VariableUnitaryGate(2)"⟩ rfl⟩

/-- C9: constructing `CircuitGate` on the default (copy) path caches `size`,
`radixes` and `utry` equal to the construction-time values of the caller's
circuit, and after any sequence of subsequent mutations of the caller's
circuit the gate's stored circuit is unchanged (no aliasing): reading it
still gives the construction-time circuit. -/
theorem circuitgate_freezing (h : Heap) (r : ℕ) (hr : r < h.length)
    (fs : List (Circuit → Circuit)) :
    (CircuitGate.init h r false).2.utry = (Heap.read h r).get_unitary ∧
    (CircuitGate.init h r false).2.size = (Heap.read h r).get_size ∧
    (CircuitGate.init h r false).2.radixes = (Heap.read h r).get_radixes ∧
    Heap.read
      (fs.foldl (fun acc f => Heap.mutateAt acc r f) (CircuitGate.init h r false).1)
      (CircuitGate.init h r false).2.circuit_ref = Heap.read h r := by
  have hinit : CircuitGate.init h r false =
      (List.append h [Circuit.copy (Heap.read h r)],
        ⟨h.length,
          (Heap.read (List.append h [Circuit.copy (Heap.read h r)]) h.length).get_size,
          (Heap.read (List.append h [Circuit.copy (Heap.read h r)]) h.length).get_radixes,
          (Heap.read (List.append h [Circuit.copy (Heap.read h r)]) h.length).get_unitary⟩) := by
    rw [CircuitGate.init]
    simp [Heap.alloc]
  have hread : Heap.read (List.append h [Circuit.copy (Heap.read h r)]) h.length =
      Heap.read h r := by
    rw [Heap.read_concat_length]
    rfl
  have hne : r ≠ h.length := Nat.ne_of_lt hr
  rw [hinit]
  refine ⟨by rw [hread], by rw [hread], by rw [hread], ?_⟩
  show Heap.read
      (fs.foldl (fun acc f => Heap.mutateAt acc r f)
        (List.append h [Circuit.copy (Heap.read h r)])) h.length = Heap.read h r
  rw [Heap.read_foldl_mutateAt_ne fs r h.length hne, hread]

/-- Witness for C9: a one-circuit heap, one mutation; the gate constructed by
copy keeps the construction-time unitary, size and radixes, and its stored
circuit is untouched by the mutation. -/
theorem circuitgate_freezing_witness :
    0 < ([wCircuit] : Heap).length ∧
    (CircuitGate.init [wCircuit] 0 false).2.utry = (Heap.read [wCircuit] 0).get_unitary ∧
    (CircuitGate.init [wCircuit] 0 false).2.size = (Heap.read [wCircuit] 0).get_size ∧
    (CircuitGate.init [wCircuit] 0 false).2.radixes = (Heap.read [wCircuit] 0).get_radixes ∧
    Heap.read
      ([wMutate].foldl (fun acc f => Heap.mutateAt acc 0 f)
        (CircuitGate.init [wCircuit] 0 false).1)
      (CircuitGate.init [wCircuit] 0 false).2.circuit_ref = Heap.read [wCircuit] 0 := by
  have h0 : 0 < ([wCircuit] : Heap).length := by simp
  exact ⟨h0, circuitgate_freezing [wCircuit] 0 h0 [wMutate]⟩

theorem reconstruct_idParams : reconstruct 2 idParams = (1 : CMat 2) := by
  ext i j
  fin_cases i <;> fin_cases j <;>
    simp [reconstruct, idParams, Matrix.one_apply, List.getD] <;>
    norm_num [finProdFinEquiv]

/-- C2: for every gate dimension `d` and every real parameter vector of
length `2·d²`, `get_unitary` succeeds and the returned matrix `U` satisfies
`‖U†U − I‖_F² < ε` for the fixed tolerance (in fact the residual is exactly
zero, `U` being a product of the SVD's unitary factors). -/
theorem get_unitary_unitarity (d : ℕ) (params : List ℝ) (s : SVDData d)
    (hlen : params.length = 2 * d ^ 2)
    (hs : IsSVDOf (reconstruct d params) s) :
    VariableUnitaryGate.get_unitary d params s = .ok (UnitaryMatrix.closest_to s) ∧
    frobeniusNormSq ((UnitaryMatrix.closest_to s).conjTranspose *
      UnitaryMatrix.closest_to s - 1) < unitaryTol := by
  have hmem := closestTo_mem_unitaryGroup hs.1 hs.2.1
  have hstar : (UnitaryMatrix.closest_to s).conjTranspose *
      UnitaryMatrix.closest_to s = 1 := by
    have h1 := Matrix.mem_unitaryGroup_iff'.mp hmem
    rwa [Matrix.star_eq_conjTranspose] at h1
  constructor
  · simp [VariableUnitaryGate.get_unitary, hlen]
  · rw [hstar, sub_self]
    have h0 : frobeniusNormSq (0 : CMat d) = 0 := by simp [frobeniusNormSq]
    rw [h0, unitaryTol]
    norm_num

/-- Witness for C2 at `d = 2` with the 8 identity parameters and the trivial
SVD of the reconstructed identity matrix. -/
theorem get_unitary_unitarity_witness :
    idParams.length = 2 * 2 ^ 2 ∧ IsSVDOf (reconstruct 2 idParams) (idSVD 2) ∧
    VariableUnitaryGate.get_unitary 2 idParams (idSVD 2) =
      .ok (UnitaryMatrix.closest_to (idSVD 2)) ∧
    frobeniusNormSq ((UnitaryMatrix.closest_to (idSVD 2)).conjTranspose *
      UnitaryMatrix.closest_to (idSVD 2) - 1) < unitaryTol := by
  have hlen : idParams.length = 2 * 2 ^ 2 := rfl
  have hs : IsSVDOf (reconstruct 2 idParams) (idSVD 2) := by
    rw [reconstruct_idParams]
    exact idSVD_is_svd 2
  obtain ⟨h1, h2⟩ := get_unitary_unitarity 2 idParams (idSVD 2) hlen hs
  exact ⟨hlen, hs, h1, h2⟩

/-- C3: `get_unitary` fails with a validation error on any parameter vector
whose length differs from `2·d²`; on a vector of length exactly `2·d²` it
returns the nearest-unitary projection of the matrix whose entry `(i, j)`
has real part `params[i·d + j]` (first half, row-major) and imaginary part
`params[d² + i·d + j]` (second half). -/
theorem get_unitary_structure (d : ℕ) (params : List ℝ) (s : SVDData d) :
    (params.length ≠ 2 * d ^ 2 →
      VariableUnitaryGate.get_unitary d params s =
        .error (.valueError "Invalid parameters: length mismatch.")) ∧
    (params.length = 2 * d ^ 2 →
      (IsSVDOf (reconstruct d params) s →
        VariableUnitaryGate.get_unitary d params s =
          .ok (UnitaryMatrix.closest_to s)) ∧
      ∀ i j : Fin d, reconstruct d params i j =
        ((params.getD (i.val * d + j.val) 0 : ℝ) : ℂ) +
        Complex.I * ((params.getD (d ^ 2 + (i.val * d + j.val)) 0 : ℝ) : ℂ)) := by
  constructor
  · intro hne
    simp [VariableUnitaryGate.get_unitary, hne]
  · intro hlen
    refine ⟨fun hs => by simp [VariableUnitaryGate.get_unitary, hlen], ?_⟩
    intro i j
    have hmid : params.length / 2 = d ^ 2 := by omega
    have hk : (finProdFinEquiv (i, j)).val = i.val * d + j.val := by
      rw [finProdFinEquiv_apply_val]
      ring
    have hklt : (finProdFinEquiv (i, j)).val < d ^ 2 := by
      have h1 := (finProdFinEquiv (i, j)).isLt
      have h2 : d * d = d ^ 2 := (sq d).symm
      omega
    have htake : (params.take (params.length / 2)).getD ((finProdFinEquiv (i, j)).val) 0 =
        params.getD (i.val * d + j.val) 0 := by
      rw [List.getD_eq_getElem?_getD, List.getD_eq_getElem?_getD, List.getElem?_take,
        if_pos (by omega), hk]
    have hdrop : (params.drop (params.length / 2)).getD ((finProdFinEquiv (i, j)).val) 0 =
        params.getD (d ^ 2 + (i.val * d + j.val)) 0 := by
      rw [List.getD_eq_getElem?_getD, List.getD_eq_getElem?_getD, List.getElem?_drop,
        hmid, hk]
    show ((params.take (params.length / 2)).getD ((finProdFinEquiv (i, j)).val) 0 : ℂ) +
        Complex.I *
          ((params.drop (params.length / 2)).getD ((finProdFinEquiv (i, j)).val) 0 : ℂ) =
        ((params.getD (i.val * d + j.val) 0 : ℝ) : ℂ) +
        Complex.I * ((params.getD (d ^ 2 + (i.val * d + j.val)) 0 : ℝ) : ℂ)
    rw [htake, hdrop]

/-- Witness for C3: the empty vector is rejected for `d = 2`, and the
8-element identity parameter vector is accepted, with the `(0, 1)` entry of
the reconstruction given by the claimed indexing. -/
theorem get_unitary_structure_witness :
    VariableUnitaryGate.get_unitary 2 ([] : List ℝ) (idSVD 2) =
      .error (.valueError "Invalid parameters: length mismatch.") ∧
    IsSVDOf (reconstruct 2 idParams) (idSVD 2) ∧
    VariableUnitaryGate.get_unitary 2 idParams (idSVD 2) =
      .ok (UnitaryMatrix.closest_to (idSVD 2)) ∧
    reconstruct 2 idParams 0 1 =
      ((idParams.getD ((0 : Fin 2).val * 2 + (1 : Fin 2).val) 0 : ℝ) : ℂ) +
      Complex.I * ((idParams.getD (2 ^ 2 + ((0 : Fin 2).val * 2 + (1 : Fin 2).val)) 0 : ℝ) : ℂ) := by
  have hs : IsSVDOf (reconstruct 2 idParams) (idSVD 2) := by
    rw [reconstruct_idParams]
    exact idSVD_is_svd 2
  exact ⟨(get_unitary_structure 2 [] (idSVD 2)).1 (by decide), hs,
    ((get_unitary_structure 2 idParams (idSVD 2)).2 rfl).1 hs,
    ((get_unitary_structure 2 idParams (idSVD 2)).2 rfl).2 0 1⟩

/-- C4: the closest-unitary projection is idempotent: projecting an
already-unitary matrix returns exactly that matrix, and projecting the
result of a projection (with any valid SVD of it) returns it unchanged. -/
theorem closest_to_idempotent (d : ℕ) (M : CMat d) (s s2 : SVDData d)
    (hs : IsSVDOf M s) (hs2 : IsSVDOf (UnitaryMatrix.closest_to s) s2) :
    (M ∈ Matrix.unitaryGroup (Fin d) ℂ → UnitaryMatrix.closest_to s = M) ∧
    UnitaryMatrix.closest_to s2 = UnitaryMatrix.closest_to s := by
  constructor
  · intro hM
    exact closestTo_eq_of_unitary hM hs
  · exact closestTo_eq_of_unitary (closestTo_mem_unitaryGroup hs.1 hs.2.1) hs2

/-- Witness for C4 at `d = 2`: the identity matrix is unitary, its trivial
SVD is valid, and the projection returns it unchanged (hence re-projection is
the identity as well). -/
theorem closest_to_idempotent_witness :
    IsSVDOf (1 : CMat 2) (idSVD 2) ∧ (1 : CMat 2) ∈ Matrix.unitaryGroup (Fin 2) ℂ ∧
    UnitaryMatrix.closest_to (idSVD 2) = (1 : CMat 2) ∧
    UnitaryMatrix.closest_to (idSVD 2) = UnitaryMatrix.closest_to (idSVD 2) := by
  have hs : IsSVDOf (1 : CMat 2) (idSVD 2) := idSVD_is_svd 2
  have hs2 : IsSVDOf (UnitaryMatrix.closest_to (idSVD 2)) (idSVD 2) := by
    rw [closestTo_idSVD]
    exact idSVD_is_svd 2
  obtain ⟨h1, h2⟩ := closest_to_idempotent 2 1 (idSVD 2) (idSVD 2) hs hs2
  exact ⟨hs, one_mem _, h1 (one_mem _), h2⟩

/-- C1 (amended): for every environment matrix `E` with SVD `E = U·Σ·Vh`, the
parameters returned by `optimize(E)`, decoded via `get_unitary` (with any
valid SVD of the reconstructed matrix), yield the unitary `U* = Vh†·U†`,
which satisfies `Re(trace(E·U*)) = Σᵢ σᵢ`, the maximal value of
`Re(trace(E·W))` over all unitaries `W` of that dimension.  (The source's
objective is `Re(trace(E·U))`, not `Re(trace(U†·E))` as claimed.) -/
theorem optimize_procrustes (d : ℕ) (env : CMat d) (s s2 : SVDData d)
    (hs : IsSVDOf env s)
    (hs2 : IsSVDOf (reconstruct d (VariableUnitaryGate.optimize d env s)) s2) :
    VariableUnitaryGate.get_unitary d (VariableUnitaryGate.optimize d env s) s2 =
      .ok (s.Vh.conjTranspose * s.U.conjTranspose) ∧
    (env * (s.Vh.conjTranspose * s.U.conjTranspose)).trace.re = ∑ i, s.S i ∧
    (∀ W ∈ Matrix.unitaryGroup (Fin d) ℂ, (env * W).trace.re ≤ ∑ i, s.S i) := by
  have hrt : reconstruct d (VariableUnitaryGate.optimize d env s) =
      s.Vh.conjTranspose * s.U.conjTranspose := by
    rw [VariableUnitaryGate.optimize]
    exact reconstruct_flattenMatrix _
  have hmem : s.Vh.conjTranspose * s.U.conjTranspose ∈ Matrix.unitaryGroup (Fin d) ℂ :=
    optimizeTarget_mem_unitaryGroup hs.1 hs.2.1
  rw [hrt] at hs2
  have hclosest : UnitaryMatrix.closest_to s2 = s.Vh.conjTranspose * s.U.conjTranspose :=
    closestTo_eq_of_unitary hmem hs2
  have hlen : (VariableUnitaryGate.optimize d env s).length = 2 * d ^ 2 := by
    rw [VariableUnitaryGate.optimize]
    exact flattenMatrix_length _
  refine ⟨?_, trace_env_mul_optimal hs, fun W hW => trace_env_mul_le hs W hW⟩
  simp [VariableUnitaryGate.get_unitary, hlen, hclosest]

/-- Witness for C1 (amended) at `d = 2` with `E = I` and trivial SVDs: the
decoded unitary is the identity and attains `Re(trace(E·U*)) = 2 = σ₁ + σ₂`. -/
theorem optimize_procrustes_witness :
    IsSVDOf (1 : CMat 2) (idSVD 2) ∧
    VariableUnitaryGate.get_unitary 2
        (VariableUnitaryGate.optimize 2 (1 : CMat 2) (idSVD 2)) (idSVD 2) =
      .ok ((idSVD 2).Vh.conjTranspose * (idSVD 2).U.conjTranspose) ∧
    ((1 : CMat 2) * ((idSVD 2).Vh.conjTranspose * (idSVD 2).U.conjTranspose)).trace.re =
      ∑ i, (idSVD 2).S i := by
  have hs : IsSVDOf (1 : CMat 2) (idSVD 2) := idSVD_is_svd 2
  have hs2 : IsSVDOf
      (reconstruct 2 (VariableUnitaryGate.optimize 2 (1 : CMat 2) (idSVD 2)))
      (idSVD 2) := by
    have hrt : reconstruct 2 (VariableUnitaryGate.optimize 2 (1 : CMat 2) (idSVD 2)) =
        (idSVD 2).Vh.conjTranspose * (idSVD 2).U.conjTranspose := by
      rw [VariableUnitaryGate.optimize]
      exact reconstruct_flattenMatrix _
    rw [hrt]
    show IsSVDOf ((1 : CMat 2).conjTranspose * (1 : CMat 2).conjTranspose) (idSVD 2)
    rw [Matrix.conjTranspose_one, one_mul]
    exact idSVD_is_svd 2
  obtain ⟨h1, h2, h3⟩ := optimize_procrustes 2 1 (idSVD 2) (idSVD 2) hs hs2
  exact ⟨hs, h1, h2⟩

theorem svdCE_U_mem : !![1, 0; 0, Complex.I] ∈ Matrix.unitaryGroup (Fin 2) ℂ := by
  rw [Matrix.mem_unitaryGroup_iff', Matrix.star_eq_conjTranspose]
  ext i j
  fin_cases i <;> fin_cases j <;>
    simp [Matrix.mul_apply, Fin.sum_univ_two, Matrix.conjTranspose_apply,
      Matrix.one_apply]

theorem svdCE2_U_mem : !![1, 0; 0, -Complex.I] ∈ Matrix.unitaryGroup (Fin 2) ℂ := by
  rw [Matrix.mem_unitaryGroup_iff', Matrix.star_eq_conjTranspose]
  ext i j
  fin_cases i <;> fin_cases j <;>
    simp [Matrix.mul_apply, Fin.sum_univ_two, Matrix.conjTranspose_apply,
      Matrix.one_apply]

theorem sigma_of_ones {d : ℕ} (s : SVDData d) (h : ∀ i, s.S i = 1) :
    s.Sigma = 1 := by
  rw [SVDData.Sigma]
  have h1 : (fun i : Fin d => ((s.S i : ℝ) : ℂ)) = fun i => (1 : ℂ) := by
    funext i
    rw [h i]
    norm_num
  rw [h1, Matrix.diagonal_one]

theorem svdCE_is_svd : IsSVDOf envCE svdCE := by
  refine ⟨svdCE_U_mem, one_mem _, fun i => zero_le_one, ?_⟩
  have h1 : svdCE.Sigma = 1 := sigma_of_ones svdCE fun i => rfl
  show envCE = svdCE.U * svdCE.Sigma * svdCE.Vh
  rw [h1]
  show envCE = !![1, 0; 0, Complex.I] * 1 * 1
  rw [mul_one, mul_one]
  rfl

theorem optimize_envCE_reconstruct :
    reconstruct 2 (VariableUnitaryGate.optimize 2 envCE svdCE) =
      !![1, 0; 0, -Complex.I] := by
  rw [VariableUnitaryGate.optimize, reconstruct_flattenMatrix]
  show (1 : CMat 2).conjTranspose * (!![1, 0; 0, Complex.I]).conjTranspose =
    !![1, 0; 0, -Complex.I]
  rw [Matrix.conjTranspose_one, one_mul]
  ext i j
  fin_cases i <;> fin_cases j <;> simp [Matrix.conjTranspose_apply]

theorem svdCE2_is_svd :
    IsSVDOf (reconstruct 2 (VariableUnitaryGate.optimize 2 envCE svdCE)) svdCE2 := by
  refine ⟨svdCE2_U_mem, one_mem _, fun i => zero_le_one, ?_⟩
  rw [optimize_envCE_reconstruct]
  have h1 : svdCE2.Sigma = 1 := sigma_of_ones svdCE2 fun i => rfl
  show !![1, 0; 0, -Complex.I] = svdCE2.U * svdCE2.Sigma * svdCE2.Vh
  rw [h1]
  show !![1, 0; 0, -Complex.I] = !![1, 0; 0, -Complex.I] * 1 * 1
  rw [mul_one, mul_one]

/-- C1 counterexample: for the environment matrix `E = diag(1, i)` with the
valid SVD `U = diag(1, i)`, `Σ = I`, `Vh = I`, the parameters `optimize(E)`
decode via `get_unitary` to `U* = diag(1, −i)`, whose objective
`Re(trace(U*†·E))` is `0`, while the unitary `W = diag(1, i)` attains
`Re(trace(W†·E)) = 2 = σ₁ + σ₂ > 0`; hence the decoded unitary does not
maximize `Re(trace(U†·E))` and its value differs from the sum of the
singular values. -/
theorem optimize_procrustes_counterexample :
    IsSVDOf envCE svdCE ∧
    IsSVDOf (reconstruct 2 (VariableUnitaryGate.optimize 2 envCE svdCE)) svdCE2 ∧
    VariableUnitaryGate.get_unitary 2 (VariableUnitaryGate.optimize 2 envCE svdCE)
      svdCE2 = .ok !![1, 0; 0, -Complex.I] ∧
    ((!![1, 0; 0, -Complex.I]).conjTranspose * envCE).trace.re = 0 ∧
    envCE ∈ Matrix.unitaryGroup (Fin 2) ℂ ∧
    (envCE.conjTranspose * envCE).trace.re = 2 ∧
    (∑ i, svdCE.S i) = 2 := by
  have hok : VariableUnitaryGate.get_unitary 2
      (VariableUnitaryGate.optimize 2 envCE svdCE) svdCE2 =
      .ok !![1, 0; 0, -Complex.I] := by
    have hlen : (VariableUnitaryGate.optimize 2 envCE svdCE).length = 2 * 2 ^ 2 := by
      rw [VariableUnitaryGate.optimize]
      exact flattenMatrix_length _
    have hclosest : UnitaryMatrix.closest_to svdCE2 = !![1, 0; 0, -Complex.I] := by
      show svdCE2.U * svdCE2.Vh = !![1, 0; 0, -Complex.I]
      show !![1, 0; 0, -Complex.I] * 1 = !![1, 0; 0, -Complex.I]
      rw [mul_one]
    simp [VariableUnitaryGate.get_unitary, hlen, hclosest]
  refine ⟨svdCE_is_svd, svdCE2_is_svd, hok, ?_, svdCE_U_mem, ?_, ?_⟩
  · show ((!![1, 0; 0, -Complex.I]).conjTranspose * !![1, 0; 0, Complex.I]).trace.re = 0
    simp [Matrix.trace_fin_two, Matrix.mul_apply, Fin.sum_univ_two,
      Matrix.conjTranspose_apply]
  · show ((!![1, 0; 0, Complex.I]).conjTranspose * !![1, 0; 0, Complex.I]).trace.re = 2
    norm_num [Matrix.trace_fin_two, Matrix.mul_apply, Fin.sum_univ_two,
      Matrix.conjTranspose_apply]
  · show (∑ i : Fin 2, (1 : ℝ)) = 2
    norm_num [Fin.sum_univ_two]
